import Mathlib

set_option maxRecDepth 8000

/-!
Shallow embedding of the invoice extractor in `streamlit_app.py`.

Text is modelled as `List Char`.  Every regular-expression pattern of the
source is translated into an executable matcher over character lists that
reproduces the Python `re` semantics of that concrete pattern (leftmost
match, greedy/lazy quantifiers, `re.IGNORECASE`, word boundaries,
lookaheads).  The PDF text extraction performed by the external `fitz`
library is a black-box parameter `bytes -> Option text` (`none` models the
library raising an exception).
-/

/-- Python whitespace characters: the `\s` class and the set stripped by
`str.strip()` (ASCII fragment). -/
def isPyWs (c : Char) : Bool :=
  c == ' ' || c == '\t' || c == '\n' || c == '\r' || c == '\x0b' || c == '\x0c'

/-- Characters of the class `[\d,]`. -/
def isDigComma (c : Char) : Bool := c.isDigit || c == ','

/-- Characters of the class `[:\s]`. -/
def isColonWs (c : Char) : Bool := c == ':' || isPyWs c

/-- Characters of the class `[\d-]`. -/
def isDigDash (c : Char) : Bool := c.isDigit || c == '-'

/-- Characters of the class `[\d./]`. -/
def isDigDotSlash (c : Char) : Bool := c.isDigit || c == '.' || c == '/'

/-- Python word characters `\w` (ASCII fragment), used for `\b`. -/
def isWordC (c : Char) : Bool := c.isAlpha || c.isDigit || c == '_'

/-- Characters of the class `[\s\-|,.:;]` used by the description cleaner. -/
def isPunctWs (c : Char) : Bool :=
  isPyWs c || c == '-' || c == '|' || c == ',' || c == '.' || c == ':' || c == ';'

/-- Python `str.strip()`. -/
def pyStrip (cs : List Char) : List Char :=
  ((cs.dropWhile isPyWs).reverse.dropWhile isPyWs).reverse

/-- Case-sensitive literal match: when the needle is a prefix of the input,
returns the input after the needle. -/
def litCS : List Char → List Char → Option (List Char)
  | [], cs => some cs
  | _ :: _, [] => none
  | p :: ps, c :: cs => if p == c then litCS ps cs else none

/-- Case-insensitive literal match (ASCII case folding, `re.IGNORECASE`). -/
def litCI : List Char → List Char → Option (List Char)
  | [], cs => some cs
  | _ :: _, [] => none
  | p :: ps, c :: cs => if p.toLower == c.toLower then litCI ps cs else none

/-- Case-insensitive literal match that also returns the consumed original
characters (a capture keeps the original text, not the pattern text). -/
def litCIc : List Char → List Char → Option (List Char × List Char)
  | [], cs => some ([], cs)
  | _ :: _, [] => none
  | p :: ps, c :: cs =>
    if p.toLower == c.toLower then
      match litCIc ps cs with
      | some (pre, rest) => some (c :: pre, rest)
      | none => none
    else none

/-- Case-sensitive substring containment. -/
def containsCS (needle : List Char) : List Char → Bool
  | [] => (litCS needle []).isSome
  | c :: cs => (litCS needle (c :: cs)).isSome || containsCS needle (cs)

/-- Case-insensitive substring containment. -/
def containsCI (needle : List Char) : List Char → Bool
  | [] => (litCI needle []).isSome
  | c :: cs => (litCI needle (c :: cs)).isSome || containsCI needle (cs)

/-- Python `str.endswith`. -/
def pyEndsWith (suffix s : List Char) : Bool :=
  (litCS suffix.reverse s.reverse).isSome

/-- Numeric value of a decimal digit string. -/
def natOfDigits (cs : List Char) : Nat :=
  cs.foldl (fun n c => n * 10 + (c.toNat - '0'.toNat)) 0

/-- Numeric key used by the total-amount fallback:
`float(x.replace(',', ''))` on captures of shape `digits-and-commas ++ ".00"`
compares like the integer value of the digits before the decimal point. -/
def amtVal (cs : List Char) : Nat :=
  natOfDigits ((cs.takeWhile (fun c => c != '.')).filter Char.isDigit)

/-- Python `max(xs, key=len)`: first element of maximal length wins, because
`max` only replaces the current best on a strictly greater key. -/
def pyMaxByLen (x : List Char) (xs : List (List Char)) : List Char :=
  xs.foldl (fun best y => if y.length > best.length then y else best) x

/-- Python `max(xs, key=lambda x: float(x.replace(',', '')))`: first element
of maximal numeric value wins. -/
def pyMaxByVal (x : List Char) (xs : List (List Char)) : List Char :=
  xs.foldl (fun best y => if amtVal y > amtVal best then y else best) x

/-! ### Generic scanning combinators (`re.search`, `re.findall`, `re.sub`) -/

/-- Leftmost search: try the matcher at every position, earliest wins
(`re.search`, returning the capture of the first match). -/
def searchM (m : List Char → Option (List Char × List Char)) :
    List Char → Option (List Char)
  | [] => (m []).map Prod.fst
  | c :: cs =>
    match m (c :: cs) with
    | some (cap, _) => some cap
    | none => searchM m cs

/-- Leftmost search threading the previous character, for patterns whose
word-boundary `\b` at the start must inspect the character before the match.
`prev = none` means start of text. -/
def searchWB (m : Option Char → List Char → Option (List Char × List Char)) :
    Option Char → List Char → Option (List Char)
  | prev, [] => (m prev []).map Prod.fst
  | prev, c :: cs =>
    match m prev (c :: cs) with
    | some (cap, _) => some cap
    | none => searchWB m (some c) cs

/-- Fuelled worker for `re.findall`: collect the captures of all
non-overlapping matches, scanning left to right and continuing after each
match.  Every matcher in this development consumes at least one character on
success, so fuel `length + 1` never runs out. -/
def findAllM (m : List Char → Option (List Char × List Char)) :
    Nat → List Char → List (List Char)
  | 0, _ => []
  | _ + 1, [] =>
    match m [] with
    | some (cap, _) => [cap]
    | none => []
  | fuel + 1, c :: cs =>
    match m (c :: cs) with
    | some (cap, rest) => cap :: findAllM m fuel rest
    | none => findAllM m fuel cs

/-- Python `re.findall` for a one-group pattern. -/
def findAll (m : List Char → Option (List Char × List Char)) (cs : List Char) :
    List (List Char) :=
  findAllM m (cs.length + 1) cs

/-- Fuelled worker for `re.sub`: replace every non-overlapping match with
`repl`, keeping the characters between matches. -/
def subAllM (m : List Char → Option (List Char)) (repl : List Char) :
    Nat → List Char → List Char
  | 0, cs => cs
  | _ + 1, [] => []
  | fuel + 1, c :: cs =>
    match m (c :: cs) with
    | some rest => repl ++ subAllM m repl fuel rest
    | none => c :: subAllM m repl fuel cs

/-- Python `re.sub(pattern, repl, s)` where the matcher returns the input
after the matched span. -/
def subAll (m : List Char → Option (List Char)) (repl : List Char)
    (cs : List Char) : List Char :=
  subAllM m repl (cs.length + 1) cs

/-- Lazy quantifier `X+?` over characters satisfying `ok`, followed by a
zero-width condition `stop` (a lookahead): consume at least one `ok`
character and extend one character at a time until `stop` holds at the
current position; return the consumed span and the rest. -/
def lazyScanP (ok : Char → Bool) (stop : List Char → Bool) :
    List Char → Option (List Char × List Char)
  | [] => none
  | c :: cs =>
    if ok c then
      if stop cs then some ([c], cs)
      else
        match lazyScanP ok stop cs with
        | some (body, rest) => some (c :: body, rest)
        | none => none
    else none

/-- Lazy quantifier `[\s\S]*?` followed by a continuation `k` that consumes
text: try `k` here, else skip one character and retry (shortest skip wins). -/
def lazyThen {α : Type} (k : List Char → Option α) : List Char → Option α
  | [] => k []
  | c :: cs =>
    match k (c :: cs) with
    | some r => some r
    | none => lazyThen k cs

/-- Lazy quantifier `.*?` (no `re.DOTALL`: skipped characters must not be
newlines) followed by a continuation `k`. -/
def lazyThenNoNl {α : Type} (k : List Char → Option α) : List Char → Option α
  | [] => k []
  | c :: cs =>
    match k (c :: cs) with
    | some r => some r
    | none => if c == '\n' then none else lazyThenNoNl k cs

/-- Exactly `n` decimal digits (`[\d]{n}`), returning them and the rest. -/
def takeDigits : Nat → List Char → Option (List Char × List Char)
  | 0, cs => some ([], cs)
  | _ + 1, [] => none
  | n + 1, c :: cs =>
    if c.isDigit then
      match takeDigits n cs with
      | some (ds, rest) => some (c :: ds, rest)
      | none => none
    else none

/-- Greedy `C+\b`: the maximal run of characters in class `cls` shortened
from the right until a word boundary holds against the following character
(`next`, `none` meaning end of input).  The argument is the reversed run;
returns the reversed kept prefix. -/
def shrinkToBoundary : List Char → Option Char → Option (List Char)
  | [], _ => none
  | c :: rest, next =>
    if isWordC c != (match next with | some n => isWordC n | none => false) then
      some (c :: rest)
    else shrinkToBoundary rest (some c)

/-! ### Matchers for the field patterns in `extraction_patterns`
Each `m...` function decides whether its pattern matches at the current
position, returning the text of capture group 1 and the input after the
whole match. -/

/-- Word boundary `\b` before a word character: the previous character must
be absent or a non-word character. -/
def boundaryStart : Option Char → Bool
  | none => true
  | some p => !isWordC p

/-- Word boundary `\b` after a word character: the next character must be
absent or a non-word character. -/
def nonWordNext : List Char → Bool
  | [] => true
  | c :: _ => !isWordC c

/-- Pattern `Order Number:\s*([\d-]+)` (IGNORECASE). -/
def mOnum1 (cs : List Char) : Option (List Char × List Char) :=
  match litCI "Order Number:".toList cs with
  | none => none
  | some r1 =>
    let r2 := r1.dropWhile isPyWs
    let (run, rest) := r2.span isDigDash
    if run = [] then none else some (run, rest)

/-- Continuation `([\d]{3}-[\d]{10}-[\d]{7})` of the second order-number
pattern. -/
def mOnum2Tail (cs : List Char) : Option (List Char × List Char) :=
  match takeDigits 3 cs with
  | none => none
  | some (d3, r1) =>
    match r1 with
    | '-' :: r2 =>
      match takeDigits 10 r2 with
      | none => none
      | some (d10, r3) =>
        match r3 with
        | '-' :: r4 =>
          match takeDigits 7 r4 with
          | none => none
          | some (d7, r5) => some (d3 ++ '-' :: d10 ++ '-' :: d7, r5)
        | _ => none
    | _ => none

/-- Pattern `Order.*?([\d]{3}-[\d]{10}-[\d]{7})` (IGNORECASE, DOTALL). -/
def mOnum2 (cs : List Char) : Option (List Char × List Char) :=
  match litCI "Order".toList cs with
  | none => none
  | some r1 => lazyThen mOnum2Tail r1

/-- Pattern `Order Date:\s*([\d./]+)` (IGNORECASE). -/
def mOdate1 (cs : List Char) : Option (List Char × List Char) :=
  match litCI "Order Date:".toList cs with
  | none => none
  | some r1 =>
    let r2 := r1.dropWhile isPyWs
    let (run, rest) := r2.span isDigDotSlash
    if run = [] then none else some (run, rest)

/-- Pattern `([\d]{2}\.[\d]{2}\.[\d]{4})` (IGNORECASE). -/
def mOdate2 (cs : List Char) : Option (List Char × List Char) :=
  match takeDigits 2 cs with
  | none => none
  | some (d2, r1) =>
    match r1 with
    | '.' :: r2 =>
      match takeDigits 2 r2 with
      | none => none
      | some (d2b, r3) =>
        match r3 with
        | '.' :: r4 =>
          match takeDigits 4 r4 with
          | none => none
          | some (d4, r5) => some (d2 ++ '.' :: d2b ++ '.' :: d4, r5)
        | _ => none
    | _ => none

/-- Pattern `Invoice Number\s*:\s*([A-Z]+-[\d]+)` (IGNORECASE; `[A-Z]` with
IGNORECASE matches letters of both cases). -/
def mInum1 (cs : List Char) : Option (List Char × List Char) :=
  match litCI "Invoice Number".toList cs with
  | none => none
  | some r1 =>
    match r1.dropWhile isPyWs with
    | ':' :: r2 =>
      let r3 := r2.dropWhile isPyWs
      let (letters, r4) := r3.span Char.isAlpha
      if letters = [] then none else
      match r4 with
      | '-' :: r5 =>
        let (digits, rest) := r5.span Char.isDigit
        if digits = [] then none else
        some (letters ++ '-' :: digits, rest)
      | _ => none
    | _ => none

/-- Pattern `([A-Z]{3,4}-[\d]+)` (IGNORECASE): greedy `{3,4}` tries four
letters first, then three; a shorter attempt can only succeed when the next
character is the literal hyphen. -/
def mInum2 (cs : List Char) : Option (List Char × List Char) :=
  match cs with
  | a :: b :: c :: rest =>
    if a.isAlpha && b.isAlpha && c.isAlpha then
      match rest with
      | d :: rest2 =>
        if d.isAlpha then
          match rest2 with
          | '-' :: rest3 =>
            let (digits, r) := rest3.span Char.isDigit
            if digits = [] then none else
            some (a :: b :: c :: d :: '-' :: digits, r)
          | _ => none
        else
          match rest with
          | '-' :: rest3 =>
            let (digits, r) := rest3.span Char.isDigit
            if digits = [] then none else
            some (a :: b :: c :: '-' :: digits, r)
          | _ => none
      | [] => none
    else none
  | _ => none

/-- Pattern `\b(BLX1-\d+)\b` (IGNORECASE). -/
def mInum3 (prev : Option Char) (cs : List Char) :
    Option (List Char × List Char) :=
  if boundaryStart prev then
    match litCIc "BLX1-".toList cs with
    | none => none
    | some (pre, r1) =>
      let (digits, rest) := r1.span Char.isDigit
      if digits = [] then none else
      if nonWordNext rest then some (pre ++ digits, rest) else none
  else none

/-- Pattern `\b(IN-\d+)\b` (IGNORECASE). -/
def mInum4 (prev : Option Char) (cs : List Char) :
    Option (List Char × List Char) :=
  if boundaryStart prev then
    match litCIc "IN-".toList cs with
    | none => none
    | some (pre, r1) =>
      let (digits, rest) := r1.span Char.isDigit
      if digits = [] then none else
      if nonWordNext rest then some (pre ++ digits, rest) else none
  else none

/-- Pattern `Invoice Details\s*:\s*([A-Z]+-[A-Z]+-[\d]+-[\d]+)`
(IGNORECASE). -/
def mIdet1 (cs : List Char) : Option (List Char × List Char) :=
  match litCI "Invoice Details".toList cs with
  | none => none
  | some r1 =>
    match r1.dropWhile isPyWs with
    | ':' :: r2 =>
      let r3 := r2.dropWhile isPyWs
      let (l1, r4) := r3.span Char.isAlpha
      if l1 = [] then none else
      match r4 with
      | '-' :: r5 =>
        let (l2, r6) := r5.span Char.isAlpha
        if l2 = [] then none else
        match r6 with
        | '-' :: r7 =>
          let (n1, r8) := r7.span Char.isDigit
          if n1 = [] then none else
          match r8 with
          | '-' :: r9 =>
            let (n2, rest) := r9.span Char.isDigit
            if n2 = [] then none else
            some (l1 ++ '-' :: l2 ++ '-' :: n1 ++ '-' :: n2, rest)
          | _ => none
        | _ => none
      | _ => none
    | _ => none

/-- Pattern `(UP-[A-Z]+-[\d-]+)` (IGNORECASE). -/
def mIdet2 (cs : List Char) : Option (List Char × List Char) :=
  match litCIc "UP-".toList cs with
  | none => none
  | some (pre, r1) =>
    let (letters, r2) := r1.span Char.isAlpha
    if letters = [] then none else
    match r2 with
    | '-' :: r3 =>
      let (run, rest) := r3.span isDigDash
      if run = [] then none else
      some (pre ++ letters ++ '-' :: run, rest)
    | _ => none

/-- Pattern `(KA-[A-Z]+-[\d-]+)` (IGNORECASE). -/
def mIdet3 (cs : List Char) : Option (List Char × List Char) :=
  match litCIc "KA-".toList cs with
  | none => none
  | some (pre, r1) =>
    let (letters, r2) := r1.span Char.isAlpha
    if letters = [] then none else
    match r2 with
    | '-' :: r3 =>
      let (run, rest) := r3.span isDigDash
      if run = [] then none else
      some (pre ++ letters ++ '-' :: run, rest)
    | _ => none

/-- Pattern `\bUP-143350511-\d+\b` (IGNORECASE).  It has no capture group;
the returned first component is the whole match (the caller raises on
`group(1)`). -/
def mIdet4 (prev : Option Char) (cs : List Char) :
    Option (List Char × List Char) :=
  if boundaryStart prev then
    match litCIc "UP-143350511-".toList cs with
    | none => none
    | some (pre, r1) =>
      let (digits, rest) := r1.span Char.isDigit
      if digits = [] then none else
      if nonWordNext rest then some (pre ++ digits, rest) else none
  else none

/-- Pattern `\bKA-BLX1-[\d-]+\b` (IGNORECASE).  No capture group; the first
component is the whole match.  The trailing `\b` backtracks the greedy
`[\d-]+` from the right until a boundary holds. -/
def mIdet5 (prev : Option Char) (cs : List Char) :
    Option (List Char × List Char) :=
  if boundaryStart prev then
    match litCIc "KA-BLX1-".toList cs with
    | none => none
    | some (pre, r1) =>
      let (run, r2) := r1.span isDigDash
      if run = [] then none else
      match shrinkToBoundary run.reverse r2.head? with
      | none => none
      | some keptRev =>
        some (pre ++ keptRev.reverse, run.drop keptRev.length ++ r2)
  else none

/-- First branch `UP-143350511-\d+` of the invoice-details fallback pattern
(case-sensitive). -/
def mIdFallbackUP (cs : List Char) : Option (List Char × List Char) :=
  match litCS "UP-143350511-".toList cs with
  | none => none
  | some r1 =>
    let (digits, rest) := r1.span Char.isDigit
    if digits = [] then none else
    if nonWordNext rest then
      some ("UP-143350511-".toList ++ digits, rest)
    else none

/-- Second branch `KA-BLX1-[\d-]+` of the invoice-details fallback pattern
(case-sensitive). -/
def mIdFallbackKA (cs : List Char) : Option (List Char × List Char) :=
  match litCS "KA-BLX1-".toList cs with
  | none => none
  | some r1 =>
    let (run, r2) := r1.span isDigDash
    if run = [] then none else
    match shrinkToBoundary run.reverse r2.head? with
    | none => none
    | some keptRev =>
      some ("KA-BLX1-".toList ++ keptRev.reverse, run.drop keptRev.length ++ r2)

/-- Fallback pattern `\b(UP-143350511-\d+|KA-BLX1-[\d-]+)\b` used for the
Invoice Details field (no IGNORECASE flag: case-sensitive). -/
def mIdFallback (prev : Option Char) (cs : List Char) :
    Option (List Char × List Char) :=
  if boundaryStart prev then
    match mIdFallbackUP cs with
    | some r => some r
    | none => mIdFallbackKA cs
  else none

/-! ### Matchers for `clean_address` -/

/-- Matcher for `\s+` in `re.sub(r'\s+', ' ', s)`: a nonempty whitespace
run; returns the input after the run. -/
def wsPlus (cs : List Char) : Option (List Char) :=
  let (run, rest) := cs.span isPyWs
  if run = [] then none else some rest

/-- Matcher for `\n+` in `re.sub(r'\n+', ' ', s)`. -/
def nlPlus (cs : List Char) : Option (List Char) :=
  let (run, rest) := cs.span (fun c => c == '\n')
  if run = [] then none else some rest

/-- Matcher for `State/UT Code.*` (case-sensitive, no DOTALL: `.*` stops at
a newline). -/
def mStateStar (cs : List Char) : Option (List Char) :=
  match litCS "State/UT Code".toList cs with
  | none => none
  | some r => some (r.dropWhile (fun c => c != '\n'))

/-- Matcher for `Place of.*` (case-sensitive, no DOTALL). -/
def mPlaceStar (cs : List Char) : Option (List Char) :=
  match litCS "Place of".toList cs with
  | none => none
  | some r => some (r.dropWhile (fun c => c != '\n'))

/-- Source `clean_address`: collapse whitespace, collapse newlines, delete
from `State/UT Code` and from `Place of` to the end of the line, strip. -/
def clean_address (address : List Char) : List Char :=
  let a1 := subAll wsPlus [' '] address
  let a2 := subAll nlPlus [' '] a1
  let a3 := subAll mStateStar [] a2
  let a4 := subAll mPlaceStar [] a3
  pyStrip a4

/-! ### Matchers for the `unwanted_patterns` of `clean_description`
All are applied with `re.sub(p, '', d, flags=re.IGNORECASE)`. -/

/-- Pattern `HSN[\s:]*[\d]+`. -/
def mUnHsn (cs : List Char) : Option (List Char) :=
  match litCI "HSN".toList cs with
  | none => none
  | some r1 =>
    let r2 := r1.dropWhile isColonWs
    let (digits, rest) := r2.span Char.isDigit
    if digits = [] then none else some rest

/-- Pattern `₹[\d,]+\.?\d*`. -/
def mUnAmt (cs : List Char) : Option (List Char) :=
  match cs with
  | '₹' :: r1 =>
    let (run, r2) := r1.span isDigComma
    if run = [] then none else
    match r2 with
    | '.' :: r3 => some (r3.dropWhile Char.isDigit)
    | _ => some r2
  | _ => none

/-- Pattern `\d+%\s*(CGST|SGST|IGST)`. -/
def mUnTaxPct (cs : List Char) : Option (List Char) :=
  let (digits, r1) := cs.span Char.isDigit
  if digits = [] then none else
  match r1 with
  | '%' :: r2 =>
    let r3 := r2.dropWhile isPyWs
    match litCI "CGST".toList r3 with
    | some rest => some rest
    | none =>
      match litCI "SGST".toList r3 with
      | some rest => some rest
      | none =>
        match litCI "IGST".toList r3 with
        | some rest => some rest
        | none => none
  | _ => none

/-- Pattern `Sl\.?\s*No\.?`. -/
def mUnSlNo (cs : List Char) : Option (List Char) :=
  match litCI "Sl".toList cs with
  | none => none
  | some r1 =>
    let r2 := match r1 with | '.' :: t => t | _ => r1
    let r3 := r2.dropWhile isPyWs
    match litCI "No".toList r3 with
    | none => none
    | some r4 =>
      match r4 with
      | '.' :: t => some t
      | _ => some r4

/-- Matcher for patterns of shape `A\s*B` (two case-insensitive literals
joined by optional whitespace). -/
def mUnPair (a b : List Char) (cs : List Char) : Option (List Char) :=
  match litCI a cs with
  | none => none
  | some r1 =>
    let r2 := r1.dropWhile isPyWs
    litCI b r2

/-- Tail `Description\s*Amount\s*1` shared by the long boilerplate
patterns. -/
def mDescAmount1 (cs : List Char) : Option (List Char) :=
  match litCI "Description".toList cs with
  | none => none
  | some r1 =>
    let r2 := r1.dropWhile isPyWs
    match litCI "Amount".toList r2 with
    | none => none
    | some r3 =>
      match r3.dropWhile isPyWs with
      | '1' :: rest => some rest
      | _ => none

/-- Pattern `BLUEWUD CONCEPTS PRIVATE LIMITED[:\s\S]*?Description\s*Amount\s*1`. -/
def mUnVendorDesc (cs : List Char) : Option (List Char) :=
  match litCI "BLUEWUD CONCEPTS PRIVATE LIMITED".toList cs with
  | none => none
  | some r1 => lazyThen mDescAmount1 r1

/-- Pattern `Authorized Signatory[\s\S]*?Description\s*Amount\s*1`. -/
def mUnSignDesc (cs : List Char) : Option (List Char) :=
  match litCI "Authorized Signatory".toList cs with
  | none => none
  | some r1 => lazyThen mDescAmount1 r1

/-- Continuation `Invoice Date\s*:\s*[\d./]+\s*Description\s*Amount\s*1`
of the order-metadata boilerplate pattern. -/
def mInvDateDesc (cs : List Char) : Option (List Char) :=
  match litCI "Invoice Date".toList cs with
  | none => none
  | some r1 =>
    match r1.dropWhile isPyWs with
    | ':' :: r2 =>
      let r3 := r2.dropWhile isPyWs
      let (run, r4) := r3.span isDigDotSlash
      if run = [] then none else
      mDescAmount1 (r4.dropWhile isPyWs)
    | _ => none

/-- Pattern `Order Number:.*?Invoice Date\s*:\s*[\d./]+\s*Description\s*Amount\s*1`
(no DOTALL: the `.*?` span cannot cross a newline). -/
def mUnOrderDesc (cs : List Char) : Option (List Char) :=
  match litCI "Order Number:".toList cs with
  | none => none
  | some r1 => lazyThenNoNl mInvDateDesc r1

/-- Continuation `Order Number:.*?Description\s*Amount\s*1` of the last
boilerplate pattern. -/
def mOrderNumDesc (cs : List Char) : Option (List Char) :=
  match litCI "Order Number:".toList cs with
  | none => none
  | some r1 => lazyThenNoNl mDescAmount1 r1

/-- Pattern `BLUEWUD CONCEPTS PRIVATE LIMITED[:\s\S]*?Order Number:.*?Description\s*Amount\s*1`. -/
def mUnVendorOrder (cs : List Char) : Option (List Char) :=
  match litCI "BLUEWUD CONCEPTS PRIVATE LIMITED".toList cs with
  | none => none
  | some r1 => lazyThen mOrderNumDesc r1

/-- The `unwanted_patterns` list of `clean_description`, in source order. -/
def unwanted_patterns : List (List Char → Option (List Char)) :=
  [ mUnHsn
  , mUnAmt
  , mUnTaxPct
  , mUnSlNo
  , mUnPair "Unit".toList "Price".toList
  , mUnPair "Qty".toList "Net".toList
  , mUnPair "Tax".toList "Rate".toList
  , mUnPair "Tax".toList "Type".toList
  , mUnPair "Tax".toList "Amount".toList
  , mUnPair "Total".toList "Amount".toList
  , mUnVendorDesc
  , mUnSignDesc
  , mUnOrderDesc
  , mUnVendorOrder
  ]

/-- Source `clean_description`: collapse-and-strip, delete each boilerplate
pattern in order, collapse-and-strip again, trim leading and trailing
separator characters. -/
def clean_description (description : List Char) : List Char :=
  if description = [] then []
  else
    let d1 := pyStrip (subAll wsPlus [' '] description)
    let d2 := unwanted_patterns.foldl (fun d m => subAll m [] d) d1
    let d3 := pyStrip (subAll wsPlus [' '] d2)
    let d4 := d3.dropWhile isPunctWs
    (d4.reverse.dropWhile isPunctWs).reverse

/-! ### Description extraction patterns -/

/-- Lookahead `(?=\s*₹|\s*HSN|\s*\d+%)` of the first description pattern. -/
def descStop1 (cs : List Char) : Bool :=
  let r := cs.dropWhile isPyWs
  (match r with | '₹' :: _ => true | _ => false)
  || (litCI "HSN".toList r).isSome
  || (let (digits, r2) := r.span Char.isDigit
      decide (digits ≠ []) && (match r2 with | '%' :: _ => true | _ => false))

/-- Lookahead `(?=\s*[A-Z][\d]|\s*HSN|\s*₹)` of the second description
pattern (`[A-Z]` under IGNORECASE matches letters of both cases). -/
def descStop2 (cs : List Char) : Bool :=
  let r := cs.dropWhile isPyWs
  (match r with | a :: d :: _ => a.isAlpha && d.isDigit | _ => false)
  || (litCI "HSN".toList r).isSome
  || (match r with | '₹' :: _ => true | _ => false)

/-- Pattern `\d+\s+(BLUEWUD[\s\S]+?)(?=\s*₹|\s*HSN|\s*\d+%)`
(IGNORECASE, DOTALL). -/
def mDesc1 (cs : List Char) : Option (List Char × List Char) :=
  let (digits, r1) := cs.span Char.isDigit
  if digits = [] then none else
  let (ws, r2) := r1.span isPyWs
  if ws = [] then none else
  match litCIc "BLUEWUD".toList r2 with
  | none => none
  | some (pre, r3) =>
    match lazyScanP (fun _ => true) descStop1 r3 with
    | none => none
    | some (body, rest) => some (pre ++ body, rest)

/-- Pattern `(BLUEWUD[^\n]+?)(?=\s*[A-Z][\d]|\s*HSN|\s*₹)` (IGNORECASE). -/
def mDesc2 (cs : List Char) : Option (List Char × List Char) :=
  match litCIc "BLUEWUD".toList cs with
  | none => none
  | some (pre, r1) =>
    match lazyScanP (fun c => c != '\n') descStop2 r1 with
    | none => none
    | some (body, rest) => some (pre ++ body, rest)

/-! ### Total-amount patterns -/

/-- Pattern `Invoice Value[:\s]*₹?\s*([\d,]+\.00)` (IGNORECASE): the single
primary Total Amount rule, also the first strict fallback pattern. -/
def mInvVal (cs : List Char) : Option (List Char × List Char) :=
  match litCI "Invoice Value".toList cs with
  | none => none
  | some r1 =>
    let r2 := r1.dropWhile isColonWs
    let r3 := match r2 with | '₹' :: t => t | _ => r2
    let r4 := r3.dropWhile isPyWs
    let (run, r5) := r4.span isDigComma
    if run = [] then none else
    match r5 with
    | '.' :: '0' :: '0' :: r6 => some (run ++ ['.', '0', '0'], r6)
    | _ => none

/-- Negative lookahead `(?![^\n]*(?:CGST|SGST|IGST|Tax))` body: a tax
keyword occurs later on the same line (case-insensitive). -/
def taxKeywordAfter (cs : List Char) : Bool :=
  let line := cs.takeWhile (fun c => c != '\n')
  containsCI "CGST".toList line || containsCI "SGST".toList line ||
    containsCI "IGST".toList line || containsCI "Tax".toList line

/-- Pattern `₹\s*([\d,]{4,}\.00)(?![^\n]*(?:CGST|SGST|IGST|Tax))`
(IGNORECASE): the second strict fallback pattern. -/
def mLarge (cs : List Char) : Option (List Char × List Char) :=
  match cs with
  | '₹' :: r1 =>
    let r2 := r1.dropWhile isPyWs
    let (run, r3) := r2.span isDigComma
    if run.length < 4 then none else
    match r3 with
    | '.' :: '0' :: '0' :: r4 =>
      if taxKeywordAfter r4 then none else some (run ++ ['.', '0', '0'], r4)
    | _ => none
  | _ => none

/-! ### Customer-address patterns -/

/-- Lookahead `(?=\nState/UT Code)` of the first address pattern. -/
def delimStateNl (cs : List Char) : Bool :=
  match cs with
  | '\n' :: t => (litCI "State/UT Code".toList t).isSome
  | _ => false

/-- Lookahead `(?=State/UT|Place of)` of the second address pattern. -/
def delimStateOrPlace (cs : List Char) : Bool :=
  (litCI "State/UT".toList cs).isSome || (litCI "Place of".toList cs).isSome

/-- Backtracking loop for the greedy `[\s:]*` before the lazy capture of the
address patterns: try skipping `k` separator characters, largest `k`
first. -/
def caddrTryK (delim : List Char → Bool) (r1 : List Char) :
    Nat → Option (List Char × List Char)
  | 0 => lazyScanP (fun _ => true) delim r1
  | k + 1 =>
    match lazyScanP (fun _ => true) delim (r1.drop (k + 1)) with
    | some res => some res
    | none => caddrTryK delim r1 k

/-- Shape `Shipping Address[\s:]*([\s\S]+?)(?=delim)` shared by the two
address patterns (IGNORECASE, DOTALL). -/
def mCaddr (delim : List Char → Bool) (cs : List Char) :
    Option (List Char × List Char) :=
  match litCI "Shipping Address".toList cs with
  | none => none
  | some r1 => caddrTryK delim r1 (r1.takeWhile isColonWs).length

/-! ### The extractor -/

/-- Names for the sixteen patterns of `extraction_patterns`, in source
order per field. -/
inductive Pat where
  | onum1 | onum2 | odate1 | odate2
  | inum1 | inum2 | inum3 | inum4
  | idet1 | idet2 | idet3 | idet4 | idet5
  | caddr1 | caddr2
  | tamt1
deriving DecidableEq

/-- One rule evaluation: `re.search(pattern, text, re.IGNORECASE | re.DOTALL)`
followed by `match.group(1)`.  The two invoice-details patterns without a
capture group raise `IndexError` on `group(1)` whenever they match, modelled
as `.error ()`. -/
def patSearch : Pat → List Char → Except Unit (Option (List Char))
  | .onum1, t => .ok (searchM mOnum1 t)
  | .onum2, t => .ok (searchM mOnum2 t)
  | .odate1, t => .ok (searchM mOdate1 t)
  | .odate2, t => .ok (searchM mOdate2 t)
  | .inum1, t => .ok (searchM mInum1 t)
  | .inum2, t => .ok (searchM mInum2 t)
  | .inum3, t => .ok (searchWB mInum3 none t)
  | .inum4, t => .ok (searchWB mInum4 none t)
  | .idet1, t => .ok (searchM mIdet1 t)
  | .idet2, t => .ok (searchM mIdet2 t)
  | .idet3, t => .ok (searchM mIdet3 t)
  | .idet4, t =>
    match searchWB mIdet4 none t with
    | some _ => .error ()
    | none => .ok none
  | .idet5, t =>
    match searchWB mIdet5 none t with
    | some _ => .error ()
    | none => .ok none
  | .caddr1, t => .ok (searchM (mCaddr delimStateNl) t)
  | .caddr2, t => .ok (searchM (mCaddr delimStateOrPlace) t)
  | .tamt1, t => .ok (searchM mInvVal t)

/-- Fixed field-name keys of the record. -/
def fieldOrderNumber : List Char := "Order Number".toList

/-- Key `Order Date`. -/
def fieldOrderDate : List Char := "Order Date".toList

/-- Key `Invoice Number`. -/
def fieldInvoiceNumber : List Char := "Invoice Number".toList

/-- Key `Invoice Details`. -/
def fieldInvoiceDetails : List Char := "Invoice Details".toList

/-- Key `Customer Address`. -/
def fieldCustomerAddress : List Char := "Customer Address".toList

/-- Key `Description`. -/
def fieldDescription : List Char := "Description".toList

/-- Key `Total Amount`. -/
def fieldTotalAmount : List Char := "Total Amount".toList

/-- Key `Source File`. -/
def fieldSourceFile : List Char := "Source File".toList

/-- The extractor object: its only state is the pattern dictionary built in
`__init__`, modelled as an association list (Python dicts preserve insertion
order). -/
structure FinalPerfectExtractor where
  extraction_patterns : List (List Char × List Pat)
deriving DecidableEq

/-- The dictionary assigned by `FinalPerfectExtractor.__init__`. -/
def mkExtractor : FinalPerfectExtractor :=
  ⟨[ (fieldOrderNumber, [.onum1, .onum2])
   , (fieldOrderDate, [.odate1, .odate2])
   , (fieldInvoiceNumber, [.inum1, .inum2, .inum3, .inum4])
   , (fieldInvoiceDetails, [.idet1, .idet2, .idet3, .idet4, .idet5])
   , (fieldCustomerAddress, [.caddr1, .caddr2])
   , (fieldTotalAmount, [.tamt1]) ]⟩

/-- Python `self.extraction_patterns.get(field_name, [])`. -/
def getPatterns (ex : FinalPerfectExtractor) (field : List Char) : List Pat :=
  (((ex.extraction_patterns.find? (fun kv => kv.1 == field)).map Prod.snd).getD [])

/-- Body of one iteration of the rule loop in `extract_field`: evaluate the
pattern, strip the capture, then apply the field-specific branches
(address cleanup; the strict `.00` acceptance for Total Amount; the
non-empty check for the remaining fields). -/
def evalFieldPat (field : List Char) (p : Pat) (text : List Char) :
    Except Unit (Option (List Char)) :=
  match patSearch p text with
  | .error e => .error e
  | .ok none => .ok none
  | .ok (some g) =>
    let value := pyStrip g
    if field = fieldCustomerAddress then
      let v := clean_address value
      if v = [] then .ok none else .ok (some v)
    else if field = fieldTotalAmount then
      if pyEndsWith ".00".toList value then .ok (some ('₹' :: value))
      else .ok none
    else if value = [] then .ok none else .ok (some value)

/-- The `for pattern in patterns: try ... except: continue` loop: a raised
per-rule exception is treated as a non-match for that rule only, and the
first accepted value short-circuits. -/
def firstRule {α : Type} (ev : α → List Char → Except Unit (Option (List Char))) :
    List α → List Char → Option (List Char)
  | [], _ => none
  | p :: ps, t =>
    match ev p t with
    | .error _ => firstRule ev ps t
    | .ok none => firstRule ev ps t
    | .ok (some v) => some v

/-- The Total Amount fallback stage: for each strict pattern in order,
collect all matches and return the currency glyph plus the largest one. -/
def taFallback (text : List Char) : Option (List Char) :=
  match findAll mInvVal text with
  | m :: ms => some ('₹' :: pyMaxByVal m ms)
  | [] =>
    match findAll mLarge text with
    | m :: ms => some ('₹' :: pyMaxByVal m ms)
    | [] => none

/-- Names for the two description patterns. -/
inductive DPat where
  | d1 | d2
deriving DecidableEq

/-- Python `re.findall(pattern, text, re.IGNORECASE | re.DOTALL)` for a
description pattern. -/
def descFindAll : DPat → List Char → List (List Char)
  | .d1, t => findAll mDesc1 t
  | .d2, t => findAll mDesc2 t

/-- Body of one iteration of the loop in `extract_description_from_table`:
collect all matches, take the longest (`max(matches, key=len)`), clean it,
and accept it only when the cleaned text is longer than 20 characters and
still contains `BLUEWUD` after upcasing.  No rule of this loop can raise. -/
def evalDescPat (p : DPat) (text : List Char) :
    Except Unit (Option (List Char)) :=
  match descFindAll p text with
  | [] => .ok none
  | m :: ms =>
    let best := pyMaxByLen m ms
    let cleaned := clean_description best
    if cleaned.length > 20
        && containsCS "BLUEWUD".toList (cleaned.map Char.toUpper) then
      .ok (some cleaned)
    else .ok none

/-- Source `extract_description_from_table`. -/
def extract_description_from_table (text : List Char) : List Char :=
  (firstRule evalDescPat [.d1, .d2] text).getD []

/-- Source `extract_field`: Description is delegated; otherwise the rule
loop runs, then the Invoice Details fallback search, then the Total Amount
fallback stage, and finally the empty string. -/
def extract_field (ex : FinalPerfectExtractor) (text field_name : List Char) :
    List Char :=
  if field_name = fieldDescription then extract_description_from_table text
  else
    match firstRule (evalFieldPat field_name) (getPatterns ex field_name) text with
    | some v => v
    | none =>
      match
        (if field_name = fieldInvoiceDetails then searchWB mIdFallback none text
         else none) with
      | some v => v
      | none =>
        if field_name = fieldTotalAmount then (taFallback text).getD [] else []

/-- Black-box contract of the `fitz` PDF text extraction: bytes to text, or
`none` when the library raises. -/
abbrev PdfTextFn := List Nat → Option (List Char)

/-- Source `extract_text_from_pdf_bytes`: the `except` branch reports the
error to the UI and returns the empty string. -/
def extract_text_from_pdf_bytes (fitz : PdfTextFn) (pdf_bytes : List Nat) :
    List Char :=
  match fitz pdf_bytes with
  | some t => t
  | none => []

/-- The fixed field enumeration iterated by
`extract_invoice_data_from_bytes`, in source order. -/
def field_names : List (List Char) :=
  [fieldOrderNumber, fieldOrderDate, fieldInvoiceNumber, fieldInvoiceDetails,
   fieldCustomerAddress, fieldDescription, fieldTotalAmount]

/-- An extracted record: field name to string value, in insertion order
(all values are strings by construction). -/
abbrev InvoiceRecord := List (List Char × List Char)

/-- Source `extract_invoice_data_from_bytes`: `None` for empty or
whitespace-only text, otherwise one entry per fixed field plus the
`Source File` entry. -/
def extract_invoice_data_from_bytes (fitz : PdfTextFn)
    (ex : FinalPerfectExtractor) (pdf_bytes : List Nat)
    (filename : List Char) : Option InvoiceRecord :=
  let text := extract_text_from_pdf_bytes fitz pdf_bytes
  if pyStrip text = [] then none
  else
    some ((field_names.map fun fn => (fn, extract_field ex text fn))
      ++ [(fieldSourceFile, filename)])

/-- One uploaded file: its name and the outcome of `uploaded_file.read()`
(`none` models `read` raising, which the per-file `except` catches). -/
structure UploadedFile where
  name : List Char
  readResult : Option (List Nat)

/-- The success test of `process_uploaded_files`:
`any(str(val).strip() for val in extracted_data.values() if val)` — some
value of the record (the `Source File` entry included) is non-empty and has
a non-whitespace character. -/
def anyValNonBlank (record : InvoiceRecord) : Bool :=
  record.any fun kv => kv.2 != [] && pyStrip kv.2 != []

/-- One iteration of the loop in `process_uploaded_files` over the
accumulator `(results, successful, failed)`. -/
def processStep (fitz : PdfTextFn) (ex : FinalPerfectExtractor)
    (acc : List InvoiceRecord × Nat × Nat) (file : UploadedFile) :
    List InvoiceRecord × Nat × Nat :=
  match file.readResult with
  | none => (acc.1, acc.2.1, acc.2.2 + 1)
  | some bytes =>
    match extract_invoice_data_from_bytes fitz ex bytes file.name with
    | some data =>
      if data != [] && anyValNonBlank data then
        (acc.1 ++ [data], acc.2.1 + 1, acc.2.2)
      else (acc.1, acc.2.1, acc.2.2 + 1)
    | none => (acc.1, acc.2.1, acc.2.2 + 1)

/-- Source `process_uploaded_files`: returns `(results, successful, failed)`
(the progress-bar and status-text calls touch only the UI). -/
def process_uploaded_files (fitz : PdfTextFn) (ex : FinalPerfectExtractor)
    (files : List UploadedFile) : List InvoiceRecord × Nat × Nat :=
  files.foldl (processStep fitz ex) ([], 0, 0)

/-- Per-document outcome: the record appended to `results` when the
document is classified successful, `none` when it is counted failed. -/
def docOutcome (fitz : PdfTextFn) (ex : FinalPerfectExtractor)
    (file : UploadedFile) : Option InvoiceRecord :=
  match file.readResult with
  | none => none
  | some bytes =>
    match extract_invoice_data_from_bytes fitz ex bytes file.name with
    | some data =>
      if data != [] && anyValNonBlank data then some data else none
    | none => none

/-- Per-document classification. -/
def docSuccess (fitz : PdfTextFn) (ex : FinalPerfectExtractor)
    (file : UploadedFile) : Bool :=
  (docOutcome fitz ex file).isSome

/-! ### Spec-side definitions (used to compare the code with the
specification's wording) -/

/-- Candidate of one description pattern as the spec words it: all
non-overlapping matches, longest first-occurring match, cleaned. -/
def descCandidate (p : DPat) (text : List Char) : Option (List Char) :=
  match descFindAll p text with
  | [] => none
  | m :: ms => some (clean_description (pyMaxByLen m ms))

/-- Acceptance predicate of the spec: cleaned length strictly above 20 and
the marker token still present case-insensitively. -/
def descAcceptable (c : List Char) : Bool :=
  c.length > 20 && containsCS "BLUEWUD".toList (c.map Char.toUpper)

/-- Spec-side description extractor: the cleaned candidate of the first
pattern whose candidate is acceptable, else the empty string. -/
def firstAcceptable : List DPat → List Char → List Char
  | [], _ => []
  | p :: ps, t =>
    match descCandidate p t with
    | some c => if descAcceptable c then c else firstAcceptable ps t
    | none => firstAcceptable ps t

/-- Spec-side description extraction over the source's pattern list. -/
def descriptionSpec (t : List Char) : List Char :=
  firstAcceptable [.d1, .d2] t

/-- Index of the first occurrence of `needle` in a list (case-sensitive). -/
def firstIdxCS (needle : List Char) : List Char → Option Nat
  | [] => if (litCS needle []).isSome then some 0 else none
  | c :: cs =>
    if (litCS needle (c :: cs)).isSome then some 0
    else (firstIdxCS needle cs).map (fun n => n + 1)

/-- Truncate a list at the first occurrence of `needle` (keep everything
before it; the whole list when absent). -/
def cutAtFirst (needle cs : List Char) : List Char :=
  match firstIdxCS needle cs with
  | some i => cs.take i
  | none => cs

/-- Truncate at whichever of the two address markers occurs first. -/
def cutMin (cs : List Char) : List Char :=
  match firstIdxCS "State/UT Code".toList cs, firstIdxCS "Place of".toList cs with
  | some i, some j => cs.take (min i j)
  | some i, none => cs.take i
  | none, some j => cs.take j
  | none, none => cs

/-- Spec-side address cleaner: collapse whitespace to single spaces,
truncate at whichever marker appears first, trim. -/
def addressSpec (s : List Char) : List Char :=
  pyStrip (cutMin (subAll wsPlus [' '] s))

/-- State-passing form of the `extract_field` method: the source never
assigns to `self`, so the translated step returns the object unchanged. -/
def extract_field_st (ex : FinalPerfectExtractor) (text field_name : List Char) :
    List Char × FinalPerfectExtractor :=
  (extract_field ex text field_name, ex)

/-- State-passing form of the `extract_invoice_data_from_bytes` method. -/
def extract_invoice_data_st (fitz : PdfTextFn) (ex : FinalPerfectExtractor)
    (pdf_bytes : List Nat) (filename : List Char) :
    Option InvoiceRecord × FinalPerfectExtractor :=
  (extract_invoice_data_from_bytes fitz ex pdf_bytes filename, ex)

/-! ### Claim theorems -/

/-- C3: for text with at least one non-whitespace character, the builder
returns a record whose key sequence is exactly the seven fixed fields plus
`Source File` (all values are strings by the type of `InvoiceRecord`); for
empty or whitespace-only text it returns `none`. -/
theorem c3_record_keys (fitz : PdfTextFn) (ex : FinalPerfectExtractor)
    (pdf_bytes : List Nat) (filename : List Char) :
    (pyStrip (extract_text_from_pdf_bytes fitz pdf_bytes) = [] →
      extract_invoice_data_from_bytes fitz ex pdf_bytes filename = none)
    ∧ (pyStrip (extract_text_from_pdf_bytes fitz pdf_bytes) ≠ [] →
      ∃ r, extract_invoice_data_from_bytes fitz ex pdf_bytes filename = some r
        ∧ r.map Prod.fst = field_names ++ [fieldSourceFile]) := by
  constructor
  · intro h
    simp [extract_invoice_data_from_bytes, h]
  · intro h
    simp only [extract_invoice_data_from_bytes, if_neg h]
    exact ⟨_, rfl, by simp only [List.map_append, List.map_map]; rfl⟩

/-- Witness for `c3_record_keys` at concrete inputs: non-blank text yields
the full key set, whitespace-only text yields `none`. -/
theorem c3_record_keys_witness :
    (∃ r, extract_invoice_data_from_bytes (fun _ => some "hi".toList)
        mkExtractor [0] "f.pdf".toList = some r
        ∧ r.map Prod.fst = field_names ++ [fieldSourceFile])
    ∧ extract_invoice_data_from_bytes (fun _ => some "  ".toList)
        mkExtractor [0] "f.pdf".toList = none :=
  ⟨(c3_record_keys (fun _ => some "hi".toList) mkExtractor [0]
      "f.pdf".toList).2 (by decide),
   (c3_record_keys (fun _ => some "  ".toList) mkExtractor [0]
      "f.pdf".toList).1 (by decide)⟩

/-- C7: an exception raised while evaluating one rule (such as reading
capture group 1 of a pattern that has none) is treated as a non-match for
that rule only; the rule loop continues with the remaining rules and never
propagates the exception. -/
theorem c7_rule_fault_isolated (field : List Char) (p : Pat) (ps : List Pat)
    (t : List Char) (h : evalFieldPat field p t = .error ()) :
    firstRule (evalFieldPat field) (p :: ps) t
      = firstRule (evalFieldPat field) ps t := by
  simp [firstRule, h]

/-- Witness for `c7_rule_fault_isolated`: the fourth Invoice Details
pattern has no capture group, so it raises on the text below, and the loop
moves on to the next rule. -/
theorem c7_rule_fault_isolated_witness :
    evalFieldPat fieldInvoiceDetails Pat.idet4 "xx UP-143350511-7 yy".toList
      = .error ()
    ∧ firstRule (evalFieldPat fieldInvoiceDetails) [Pat.idet4, Pat.idet5]
        "xx UP-143350511-7 yy".toList
      = firstRule (evalFieldPat fieldInvoiceDetails) [Pat.idet5]
        "xx UP-143350511-7 yy".toList :=
  ⟨rfl, c7_rule_fault_isolated fieldInvoiceDetails Pat.idet4 [Pat.idet5]
    "xx UP-143350511-7 yy".toList rfl⟩

/-- C9: extraction is deterministic and stateless.  The methods are modelled
in state-passing style; they return the extractor object unchanged (the
source never assigns to `self`), so re-running on identical inputs gives
identical results. -/
theorem c9_deterministic_stateless (ex : FinalPerfectExtractor)
    (text field_name : List Char) (fitz : PdfTextFn) (pdf_bytes : List Nat)
    (filename : List Char) :
    (extract_field_st ex text field_name).2 = ex
    ∧ extract_field_st (extract_field_st ex text field_name).2 text field_name
        = extract_field_st ex text field_name
    ∧ (extract_invoice_data_st fitz ex pdf_bytes filename).2 = ex
    ∧ extract_invoice_data_st fitz
        (extract_invoice_data_st fitz ex pdf_bytes filename).2 pdf_bytes filename
        = extract_invoice_data_st fitz ex pdf_bytes filename :=
  ⟨rfl, rfl, rfl, rfl⟩

/-! ### Batch-processing lemmas -/

/-- One loop iteration appends the per-document outcome and bumps exactly
one of the two counters. -/
theorem processStep_eq (fitz : PdfTextFn) (ex : FinalPerfectExtractor)
    (acc : List InvoiceRecord × Nat × Nat) (file : UploadedFile) :
    processStep fitz ex acc file =
      (acc.1 ++ (docOutcome fitz ex file).toList,
       acc.2.1 + (if docSuccess fitz ex file then 1 else 0),
       acc.2.2 + (if docSuccess fitz ex file then 0 else 1)) := by
  obtain ⟨name, rr⟩ := file
  simp only [processStep, docOutcome, docSuccess]
  cases rr with
  | none => simp
  | some bytes =>
    cases hb : extract_invoice_data_from_bytes fitz ex bytes name with
    | none => simp [hb]
    | some data =>
      by_cases h : (data != [] && anyValNonBlank data) = true
      · simp [hb, h]
      · simp [hb, h]

/-- The batch loop, run from any accumulator, appends the filter-mapped
per-document outcomes and adds the per-document counts. -/
theorem process_go (fitz : PdfTextFn) (ex : FinalPerfectExtractor)
    (files : List UploadedFile) :
    ∀ acc : List InvoiceRecord × Nat × Nat,
      List.foldl (processStep fitz ex) acc files =
        (acc.1 ++ files.filterMap (docOutcome fitz ex),
         acc.2.1 + files.countP (docSuccess fitz ex),
         acc.2.2 + files.countP (fun f => !docSuccess fitz ex f)) := by
  induction files with
  | nil => intro acc; simp
  | cons f fs ih =>
    intro acc
    rw [List.foldl_cons, ih, processStep_eq]
    simp only [Prod.mk.injEq]
    refine ⟨?_, ?_, ?_⟩
    · cases h : docOutcome fitz ex f <;>
        simp [List.filterMap_cons, h, List.append_assoc]
    · rw [List.countP_cons]
      by_cases h : docSuccess fitz ex f <;> simp [h] <;> omega
    · rw [List.countP_cons]
      by_cases h : docSuccess fitz ex f <;> simp [h] <;> omega

/-- Closed form of `process_uploaded_files`. -/
theorem process_eq (fitz : PdfTextFn) (ex : FinalPerfectExtractor)
    (files : List UploadedFile) :
    process_uploaded_files fitz ex files =
      (files.filterMap (docOutcome fitz ex),
       files.countP (docSuccess fitz ex),
       files.countP (fun f => !docSuccess fitz ex f)) := by
  unfold process_uploaded_files
  rw [process_go]
  simp

/-- A predicate and its negation count every element exactly once. -/
theorem countP_split {α : Type} (p : α → Bool) (l : List α) :
    l.countP p + l.countP (fun a => !p a) = l.length := by
  induction l with
  | nil => rfl
  | cons a l ih =>
    rw [List.countP_cons, List.countP_cons, List.length_cons]
    by_cases h : p a = true <;> simp [h] <;> omega

/-- C5: every document is classified exactly once (the counters sum to the
batch size), and the batch splits pointwise over concatenation — a failing
document never affects the processing of the documents after it, and the
input order of the surviving records is preserved. -/
theorem c5_batch_isolation (fitz : PdfTextFn) (ex : FinalPerfectExtractor)
    (xs ys : List UploadedFile) :
    (process_uploaded_files fitz ex xs).2.1
        + (process_uploaded_files fitz ex xs).2.2 = xs.length
    ∧ process_uploaded_files fitz ex (xs ++ ys) =
        ((process_uploaded_files fitz ex xs).1
            ++ (process_uploaded_files fitz ex ys).1,
         (process_uploaded_files fitz ex xs).2.1
            + (process_uploaded_files fitz ex ys).2.1,
         (process_uploaded_files fitz ex xs).2.2
            + (process_uploaded_files fitz ex ys).2.2) := by
  simp only [process_eq]
  exact ⟨countP_split _ _,
    by simp [List.filterMap_append, List.countP_append]⟩

/-- C10: the results list is exactly the per-document successful records in
input order — failed documents contribute no entry — and its length equals
the successful counter. -/
theorem c10_results_are_successes (fitz : PdfTextFn)
    (ex : FinalPerfectExtractor) (files : List UploadedFile) :
    (process_uploaded_files fitz ex files).1
        = files.filterMap (docOutcome fitz ex)
    ∧ (process_uploaded_files fitz ex files).1.length
        = (process_uploaded_files fitz ex files).2.1 := by
  constructor
  · simp [process_eq]
  · simp only [process_eq]
    induction files with
    | nil => rfl
    | cons f fs ih =>
      rw [List.filterMap_cons, List.countP_cons]
      cases h : docOutcome fitz ex f <;> simp [docSuccess, h, ih]

/-- C4 (amended): a document is classified successful exactly when its
built record exists and at least one value of the record — the
`Source File` entry included — is non-empty with a non-whitespace
character; the successful counter counts these documents and the failed
counter counts the rest.  (The source tests `extracted_data.values()`,
which contains the filename, not just the seven fixed fields.) -/
theorem c4_success_test (fitz : PdfTextFn) (ex : FinalPerfectExtractor)
    (files : List UploadedFile) (file : UploadedFile) :
    (docSuccess fitz ex file = true ↔
      ∃ bytes data, file.readResult = some bytes
        ∧ extract_invoice_data_from_bytes fitz ex bytes file.name = some data
        ∧ data ≠ [] ∧ anyValNonBlank data = true)
    ∧ (process_uploaded_files fitz ex files).2.1
        = files.countP (docSuccess fitz ex)
    ∧ (process_uploaded_files fitz ex files).2.2
        = files.length - files.countP (docSuccess fitz ex) := by
  refine ⟨?_, ?_, ?_⟩
  · obtain ⟨name, rr⟩ := file
    simp only [docSuccess, docOutcome]
    cases rr with
    | none => simp
    | some bytes =>
      cases hb : extract_invoice_data_from_bytes fitz ex bytes name with
      | none => simp [hb]
      | some data =>
        by_cases h : (data != [] && anyValNonBlank data) = true
        · simp only [h, if_true, Option.isSome_some]
          simp only [Bool.and_eq_true, bne_iff_ne, ne_eq] at h
          simp [hb, h.1, h.2]
        · simp only [hb]
          rw [if_neg h]
          simp only [Option.isSome_none, Bool.false_eq_true, false_iff]
          rintro ⟨b, d, hb2, hd, hne, hblank⟩
          cases hb2
          rw [hb] at hd
          cases hd
          apply h
          simp only [Bool.and_eq_true, bne_iff_ne]
          exact ⟨hne, hblank⟩
  · simp [process_eq]
  · simp only [process_eq]
    have hsplit := countP_split (docSuccess fitz ex) files
    omega

/-- Witness for `c4_success_test`: a readable one-page document with
non-blank text is classified successful. -/
theorem c4_success_test_witness :
    docSuccess (fun _ => some "hello world".toList) mkExtractor
      ⟨"a.pdf".toList, some [0]⟩ = true :=
  ((c4_success_test (fun _ => some "hello world".toList) mkExtractor []
      ⟨"a.pdf".toList, some [0]⟩).1).2
    ⟨[0], [(fieldOrderNumber, []), (fieldOrderDate, []), (fieldInvoiceNumber, []),
      (fieldInvoiceDetails, []), (fieldCustomerAddress, []), (fieldDescription, []),
      (fieldTotalAmount, []), (fieldSourceFile, "a.pdf".toList)],
     rfl, by decide, by decide, by decide⟩

/-- Counterexample to C4 as stated: a document whose record has all seven
fixed fields empty (text `hello world` matches no pattern) is still
classified successful — the record is appended and the failed counter stays
at zero — because the non-empty `Source File` value passes the `any(...)`
test, whereas the claim requires such a document to be counted failed. -/
theorem c4_counterexample :
    process_uploaded_files (fun _ => some "hello world".toList) mkExtractor
      [⟨"a.pdf".toList, some [0]⟩] =
    ([[(fieldOrderNumber, []), (fieldOrderDate, []), (fieldInvoiceNumber, []),
       (fieldInvoiceDetails, []), (fieldCustomerAddress, []),
       (fieldDescription, []), (fieldTotalAmount, []),
       (fieldSourceFile, "a.pdf".toList)]], 1, 0) := by
  decide

/-- One description rule evaluates to the spec-side candidate filtered by
the acceptance predicate (and never raises). -/
theorem evalDescPat_eq (p : DPat) (t : List Char) :
    evalDescPat p t = .ok (match descCandidate p t with
      | some c => if descAcceptable c = true then some c else none
      | none => none) := by
  simp only [evalDescPat, descCandidate, descAcceptable]
  cases descFindAll p t with
  | nil => rfl
  | cons m ms =>
    simp only []
    split
    · rfl
    · rfl

/-- The description loop equals the spec-side first-acceptable scan. -/
theorem descLoop_eq (ps : List DPat) (t : List Char) :
    (firstRule evalDescPat ps t).getD [] = firstAcceptable ps t := by
  induction ps with
  | nil => rfl
  | cons p ps ih =>
    simp only [firstRule, evalDescPat_eq, firstAcceptable]
    cases hc : descCandidate p t with
    | none => exact ih
    | some c =>
      by_cases h : descAcceptable c = true
      · simp [h]
      · simp only [if_neg h]
        exact ih

/-- The first-acceptable scan returns the empty string or an acceptable
candidate. -/
theorem firstAcceptable_acceptable (ps : List DPat) (t : List Char) :
    firstAcceptable ps t = []
      ∨ descAcceptable (firstAcceptable ps t) = true := by
  induction ps with
  | nil => exact Or.inl rfl
  | cons p ps ih =>
    simp only [firstAcceptable]
    cases descCandidate p t with
    | none => exact ih
    | some c =>
      dsimp only
      by_cases h : descAcceptable c = true
      · rw [if_pos h]; exact Or.inr h
      · rw [if_neg h]; exact ih

/-- C2: `extract_description_from_table` equals the spec's description —
for each pattern in order collect all matches, take the longest (first
occurrence on ties), clean it, return the first cleaned candidate that is
longer than 20 characters and still contains `BLUEWUD` case-insensitively
— and its result is either empty or such an acceptable candidate (so a
short or marker-free candidate is never returned). -/
theorem c2_description_selection (t : List Char) :
    extract_description_from_table t = descriptionSpec t
    ∧ (extract_description_from_table t = []
       ∨ ((extract_description_from_table t).length > 20
          ∧ containsCS "BLUEWUD".toList
              ((extract_description_from_table t).map Char.toUpper) = true)) := by
  have h1 : extract_description_from_table t = descriptionSpec t :=
    descLoop_eq [.d1, .d2] t
  refine ⟨h1, ?_⟩
  rw [h1]
  rcases firstAcceptable_acceptable [.d1, .d2] t with h | h
  · exact Or.inl h
  · right
    simpa only [descAcceptable, Bool.and_eq_true, decide_eq_true_eq] using h

/-! ### Lemmas for the Total Amount claim -/

/-- A case-sensitive literal is a prefix of itself followed by anything. -/
theorem litCS_append_self (n x : List Char) : litCS n (n ++ x) = some x := by
  induction n with
  | nil => rfl
  | cons c n ih => simp [litCS, ih]

/-- Appending a suffix makes `pyEndsWith` succeed on it. -/
theorem pyEndsWith_append (suf pre : List Char) :
    pyEndsWith suf (pre ++ suf) = true := by
  unfold pyEndsWith
  rw [List.reverse_append, litCS_append_self]
  rfl

/-- A successful leftmost search comes from a successful match at some
position. -/
theorem searchM_some (m : List Char → Option (List Char × List Char))
    (cs cap : List Char) (h : searchM m cs = some cap) :
    ∃ u rest, m u = some (cap, rest) := by
  induction cs with
  | nil =>
    simp only [searchM, Option.map_eq_some'] at h
    obtain ⟨⟨a, b⟩, hm, hfst⟩ := h
    cases hfst
    exact ⟨[], b, hm⟩
  | cons c cs ih =>
    simp only [searchM] at h
    cases hm : m (c :: cs) with
    | some pr =>
      obtain ⟨a, b⟩ := pr
      rw [hm] at h
      cases h
      exact ⟨c :: cs, b, hm⟩
    | none =>
      rw [hm] at h
      exact ih h

/-- When the search fails, `findall` of the same matcher is empty. -/
theorem findAllM_eq_nil (m : List Char → Option (List Char × List Char))
    (fuel : Nat) :
    ∀ cs : List Char, searchM m cs = none → findAllM m fuel cs = [] := by
  induction fuel with
  | zero => intro cs _; rfl
  | succ fuel ih =>
    intro cs h
    cases cs with
    | nil =>
      simp only [searchM, Option.map_eq_none'] at h
      simp [findAllM, h]
    | cons c cs =>
      simp only [searchM] at h
      simp only [findAllM]
      cases hm : m (c :: cs) with
      | none =>
        rw [hm] at h
        exact ih cs h
      | some pr =>
        obtain ⟨a, b⟩ := pr
        rw [hm] at h
        cases h

/-- Every `findall` element is the capture of some successful match. -/
theorem findAllM_mem (m : List Char → Option (List Char × List Char))
    (fuel : Nat) :
    ∀ cs x : List Char, x ∈ findAllM m fuel cs →
      ∃ u rest, m u = some (x, rest) := by
  induction fuel with
  | zero =>
    intro cs x h
    simp only [findAllM] at h
    cases h
  | succ fuel ih =>
    intro cs x h
    cases cs with
    | nil =>
      simp only [findAllM] at h
      cases hm : m [] with
      | none => rw [hm] at h; cases h
      | some pr =>
        obtain ⟨a, b⟩ := pr
        rw [hm] at h
        simp only [List.mem_singleton] at h
        subst h
        exact ⟨[], b, hm⟩
    | cons c cs =>
      simp only [findAllM] at h
      cases hm : m (c :: cs) with
      | none =>
        rw [hm] at h
        exact ih cs x h
      | some pr =>
        obtain ⟨a, b⟩ := pr
        rw [hm] at h
        rcases List.mem_cons.mp h with h1 | h1
        · subst h1
          exact ⟨c :: cs, b, hm⟩
        · exact ih b x h1

/-- The Python `max(..., key=float)` reduction returns an element of its
input list. -/
theorem pyMaxByVal_mem (x : List Char) (xs : List (List Char)) :
    pyMaxByVal x xs ∈ x :: xs := by
  induction xs generalizing x with
  | nil => exact List.mem_cons_self _ _
  | cons y ys ih =>
    simp only [pyMaxByVal, List.foldl_cons]
    have h := ih (if amtVal y > amtVal x then y else x)
    simp only [pyMaxByVal] at h
    rcases List.mem_cons.mp h with h1 | h1
    · rw [h1]
      by_cases hc : amtVal y > amtVal x
      · simp [hc]
      · simp [hc]
    · exact List.mem_cons_of_mem _ (List.mem_cons_of_mem _ h1)

/-- Every capture of the primary Total Amount pattern ends in `.00`. -/
theorem mInvVal_cap (cs cap rest : List Char)
    (h : mInvVal cs = some (cap, rest)) :
    ∃ pre, cap = pre ++ ['.', '0', '0'] := by
  unfold mInvVal at h
  cases h1 : litCI "Invoice Value".toList cs with
  | none => rw [h1] at h; cases h
  | some r1 =>
    rw [h1] at h
    simp only [List.span_eq_take_drop] at h
    split at h
    · cases h
    · split at h
      · simp only [Option.some.injEq, Prod.mk.injEq] at h
        exact ⟨_, h.1.symm⟩
      · cases h

/-- Every capture of the fallback large-amount pattern ends in `.00`. -/
theorem mLarge_cap (cs cap rest : List Char)
    (h : mLarge cs = some (cap, rest)) :
    ∃ pre, cap = pre ++ ['.', '0', '0'] := by
  unfold mLarge at h
  split at h
  · simp only [List.span_eq_take_drop] at h
    split at h
    · cases h
    · split at h
      · split at h
        · cases h
        · simp only [Option.some.injEq, Prod.mk.injEq] at h
          exact ⟨_, h.1.symm⟩
      · cases h
  · cases h

/-- Stripping preserves a trailing `.00` (its last character is not
whitespace). -/
theorem pyStrip_dot00 (pre : List Char) :
    ∃ q, pyStrip (pre ++ ['.', '0', '0']) = q ++ ['.', '0', '0'] := by
  unfold pyStrip
  rw [List.dropWhile_append]
  by_cases h : (pre.dropWhile isPyWs).isEmpty = true
  · rw [if_pos h]
    exact ⟨[], by decide⟩
  · rw [if_neg h]
    refine ⟨pre.dropWhile isPyWs, ?_⟩
    have h2 : (pre.dropWhile isPyWs ++ ['.', '0', '0']).reverse
        = '0' :: '0' :: '.' :: (pre.dropWhile isPyWs).reverse := by
      simp
    rw [h2, List.dropWhile_cons_of_neg (by decide)]
    simp

/-- The value returned for a primary-pattern match still ends in `.00`
after stripping. -/
theorem pyStrip_endsWith_dot00 (pre : List Char) :
    pyEndsWith ".00".toList (pyStrip (pre ++ ['.', '0', '0'])) = true := by
  obtain ⟨q, hq⟩ := pyStrip_dot00 pre
  rw [hq]
  exact pyEndsWith_append _ _

/-- The single Total Amount rule evaluates to the currency glyph plus the
stripped first `Invoice Value` capture: the `.00` acceptance test always
passes because the pattern itself ends in `.00`. -/
theorem evalFieldPat_ta_eq (t : List Char) :
    evalFieldPat fieldTotalAmount Pat.tamt1 t =
      .ok ((searchM mInvVal t).map (fun g => '₹' :: pyStrip g)) := by
  unfold evalFieldPat
  simp only [patSearch]
  cases hs : searchM mInvVal t with
  | none => rfl
  | some g =>
    simp only [Option.map_some']
    rw [if_neg (by decide : ¬(fieldTotalAmount = fieldCustomerAddress))]
    rw [if_pos trivial]
    obtain ⟨u, rest, hm⟩ := searchM_some mInvVal t g hs
    obtain ⟨pre, hpre⟩ := mInvVal_cap u g rest hm
    have hends : pyEndsWith ".00".toList (pyStrip g) = true := by
      rw [hpre]
      exact pyStrip_endsWith_dot00 pre
    rw [if_pos hends]

/-- The primary Total Amount stage returns the first `Invoice Value` match
(prefixed), not the largest. -/
theorem firstRule_ta (t : List Char) :
    firstRule (evalFieldPat fieldTotalAmount) [Pat.tamt1] t
      = (searchM mInvVal t).map (fun g => '₹' :: pyStrip g) := by
  simp only [firstRule, evalFieldPat_ta_eq]
  cases searchM mInvVal t <;> rfl

/-- Closed form of `extract_field` for the Total Amount field. -/
theorem extract_field_ta (t : List Char) :
    extract_field mkExtractor t fieldTotalAmount =
      (match searchM mInvVal t with
      | some g => '₹' :: pyStrip g
      | none =>
        match findAll mLarge t with
        | m :: ms => '₹' :: pyMaxByVal m ms
        | [] => []) := by
  unfold extract_field
  rw [if_neg (by decide : ¬(fieldTotalAmount = fieldDescription))]
  have hget : getPatterns mkExtractor fieldTotalAmount = [Pat.tamt1] := by decide
  rw [hget, firstRule_ta]
  cases hs : searchM mInvVal t with
  | some g => rfl
  | none =>
    simp only [Option.map_none']
    rw [if_neg (by decide : ¬(fieldTotalAmount = fieldInvoiceDetails))]
    have hfa : findAll mInvVal t = [] := findAllM_eq_nil mInvVal _ t hs
    simp only [taFallback, hfa]
    rw [if_pos trivial]
    cases findAll mLarge t <;> rfl

/-- C1 (amended): every non-empty Total Amount result is the currency glyph
followed by a value ending in `.00`; when the `Invoice Value` pattern
matches, the result is the *first* such match in the text (not the
greatest); the greatest-value selection applies only in the fallback stage,
over the large amounts not followed by a tax keyword, and only when no
`Invoice Value` match exists. -/
theorem c1_total_amount (t : List Char) :
    (extract_field mkExtractor t fieldTotalAmount = []
      ∨ ∃ s, extract_field mkExtractor t fieldTotalAmount = '₹' :: s
          ∧ pyEndsWith ".00".toList s = true)
    ∧ (∀ g, searchM mInvVal t = some g →
        extract_field mkExtractor t fieldTotalAmount = '₹' :: pyStrip g)
    ∧ (searchM mInvVal t = none →
        (findAll mLarge t = [] →
          extract_field mkExtractor t fieldTotalAmount = [])
        ∧ ∀ m ms, findAll mLarge t = m :: ms →
            extract_field mkExtractor t fieldTotalAmount
              = '₹' :: pyMaxByVal m ms) := by
  rw [extract_field_ta]
  refine ⟨?_, ?_, ?_⟩
  · cases hs : searchM mInvVal t with
    | some g =>
      right
      obtain ⟨u, rest, hm⟩ := searchM_some mInvVal t g hs
      obtain ⟨pre, hpre⟩ := mInvVal_cap u g rest hm
      refine ⟨pyStrip g, rfl, ?_⟩
      rw [hpre]
      exact pyStrip_endsWith_dot00 pre
    | none =>
      cases hl : findAll mLarge t with
      | nil => exact Or.inl rfl
      | cons m ms =>
        right
        refine ⟨pyMaxByVal m ms, rfl, ?_⟩
        have hmem := pyMaxByVal_mem m ms
        rw [← hl] at hmem
        obtain ⟨u, rest, hm⟩ := findAllM_mem mLarge _ t _ hmem
        obtain ⟨pre, hpre⟩ := mLarge_cap u _ rest hm
        rw [hpre]
        exact pyEndsWith_append _ _
  · intro g hs
    rw [hs]
  · intro hs
    rw [hs]
    exact ⟨fun hl => by rw [hl], fun m ms hl => by rw [hl]⟩

/-- Witness for `c1_total_amount`: the primary stage at a text with one
`Invoice Value` amount, and the fallback stage at a text with one large
amount. -/
theorem c1_total_amount_witness :
    extract_field mkExtractor "Invoice Value: 2,100.00".toList
        fieldTotalAmount = '₹' :: pyStrip "2,100.00".toList
    ∧ extract_field mkExtractor "xx ₹3,400.00 yy".toList fieldTotalAmount
        = '₹' :: pyMaxByVal "3,400.00".toList [] :=
  ⟨(c1_total_amount "Invoice Value: 2,100.00".toList).2.1
      "2,100.00".toList (by decide),
   ((c1_total_amount "xx ₹3,400.00 yy".toList).2.2 (by decide)).2
      "3,400.00".toList [] (by decide)⟩

/-- Counterexample to C1 as stated: the text below contains two candidates
ending in two zero fractional digits, `100.00` first and the numerically
greater `200.00` second, yet the extractor returns `₹100.00` (the first
`Invoice Value` match), not the greatest. -/
theorem c1_counterexample :
    extract_field mkExtractor
        "Invoice Value: 100.00 Invoice Value: 200.00".toList fieldTotalAmount
      = "₹100.00".toList
    ∧ findAll mInvVal "Invoice Value: 100.00 Invoice Value: 200.00".toList
      = ["100.00".toList, "200.00".toList]
    ∧ amtVal "200.00".toList > amtVal "100.00".toList
    ∧ "₹100.00".toList ≠ "₹200.00".toList :=
  ⟨by decide, by decide, by decide, by decide⟩

/-- C8: when no primary Invoice Details rule yields an accepted value, the
fallback search for the two fixed code shapes decides the result — its
match is returned verbatim, and the empty string is returned when it also
fails. -/
theorem c8_invoice_details_fallback (t v : List Char)
    (hprimary : firstRule (evalFieldPat fieldInvoiceDetails)
        (getPatterns mkExtractor fieldInvoiceDetails) t = none) :
    (searchWB mIdFallback none t = some v →
      extract_field mkExtractor t fieldInvoiceDetails = v)
    ∧ (searchWB mIdFallback none t = none →
      extract_field mkExtractor t fieldInvoiceDetails = []) := by
  unfold extract_field
  rw [if_neg (by decide : ¬(fieldInvoiceDetails = fieldDescription))]
  rw [hprimary, if_pos (rfl : fieldInvoiceDetails = fieldInvoiceDetails)]
  constructor
  · intro h
    rw [h]
  · intro h
    rw [h]
    rw [if_neg (by decide : ¬(fieldInvoiceDetails = fieldTotalAmount))]

/-- Witness for `c8_invoice_details_fallback`: a text where only the
fallback shape is present, and a text where nothing matches. -/
theorem c8_invoice_details_fallback_witness :
    extract_field mkExtractor "hello UP-143350511-42".toList
        fieldInvoiceDetails = "UP-143350511-42".toList
    ∧ extract_field mkExtractor "hello".toList fieldInvoiceDetails = [] :=
  ⟨(c8_invoice_details_fallback "hello UP-143350511-42".toList
      "UP-143350511-42".toList (by decide)).1 (by decide),
   (c8_invoice_details_fallback "hello".toList [] (by decide)).2 (by decide)⟩

/-! ### Lemmas for the address-cleaner claim -/

/-- A successful literal match decomposes the input. -/
theorem litCS_some_decomp (n : List Char) :
    ∀ cs r : List Char, litCS n cs = some r → cs = n ++ r := by
  induction n with
  | nil =>
    intro cs r h
    simp only [litCS] at h
    cases h
    rfl
  | cons p ps ih =>
    intro cs r h
    cases cs with
    | nil => cases h
    | cons c cs =>
      simp only [litCS] at h
      by_cases hpc : (p == c) = true
      · rw [if_pos hpc] at h
        have := ih cs r h
        rw [List.cons_append, ← this, eq_of_beq hpc]
      · rw [if_neg hpc] at h
        cases h

/-- A literal matching a truncated list matches the list itself. -/
theorem litCS_take_isSome (n : List Char) :
    ∀ (m : Nat) (xs : List Char),
      (litCS n (xs.take m)).isSome = true → (litCS n xs).isSome = true := by
  induction n with
  | nil => intro m xs _; rfl
  | cons p ps ih =>
    intro m xs h
    cases m with
    | zero => simp [litCS] at h
    | succ m =>
      cases xs with
      | nil => simp [litCS] at h
      | cons x xs =>
        simp only [List.take_succ_cons, litCS] at h ⊢
        by_cases hpc : (p == x) = true
        · rw [if_pos hpc] at h ⊢
          exact ih m xs h
        · rw [if_neg hpc] at h
          cases h

/-- A literal that matches survives truncation at or after its end. -/
theorem litCS_isSome_of_take (n : List Char) :
    ∀ (m : Nat) (xs : List Char), n.length ≤ m →
      (litCS n xs).isSome = true → (litCS n (xs.take m)).isSome = true := by
  induction n with
  | nil => intro m xs _ _; rfl
  | cons p ps ih =>
    intro m xs hm h
    cases m with
    | zero => simp at hm
    | succ m =>
      cases xs with
      | nil => simp [litCS] at h
      | cons x xs =>
        simp only [List.take_succ_cons, litCS] at h ⊢
        by_cases hpc : (p == x) = true
        · rw [if_pos hpc] at h ⊢
          exact ih m xs (Nat.le_of_succ_le_succ hm) h
        · rw [if_neg hpc] at h
          cases h

/-- The first-occurrence index points at a real occurrence. -/
theorem firstIdxCS_spec (n : List Char) :
    ∀ cs : List Char, ∀ i, firstIdxCS n cs = some i →
      (litCS n (cs.drop i)).isSome = true := by
  intro cs
  induction cs with
  | nil =>
    intro i h
    simp only [firstIdxCS] at h
    by_cases hs : (litCS n []).isSome = true
    · rw [if_pos hs] at h
      cases h
      exact hs
    · rw [if_neg hs] at h
      cases h
  | cons c cs ih =>
    intro i h
    simp only [firstIdxCS] at h
    by_cases hs : (litCS n (c :: cs)).isSome = true
    · rw [if_pos hs] at h
      cases h
      exact hs
    · rw [if_neg hs] at h
      simp only [Option.map_eq_some'] at h
      obtain ⟨j, hj, hji⟩ := h
      subst hji
      exact ih j hj

/-- Truncation when the marker sits at the head. -/
theorem cutAtFirst_cons_pos {n : List Char} {c : Char} {cs : List Char}
    (h : (litCS n (c :: cs)).isSome = true) :
    cutAtFirst n (c :: cs) = [] := by
  unfold cutAtFirst firstIdxCS
  rw [if_pos h]
  rfl

/-- Truncation steps over a head where the marker does not sit. -/
theorem cutAtFirst_cons_neg {n : List Char} {c : Char} {cs : List Char}
    (h : (litCS n (c :: cs)).isSome = false) :
    cutAtFirst n (c :: cs) = c :: cutAtFirst n cs := by
  unfold cutAtFirst
  simp only [firstIdxCS, h, Bool.false_eq_true, if_false]
  cases hfi : firstIdxCS n cs with
  | none => rfl
  | some i => simp [List.take_succ_cons]

/-- Characters survive truncation. -/
theorem mem_cutAtFirst {n cs : List Char} {c : Char}
    (h : c ∈ cutAtFirst n cs) : c ∈ cs := by
  unfold cutAtFirst at h
  cases hfi : firstIdxCS n cs with
  | none => rw [hfi] at h; exact h
  | some i =>
    rw [hfi] at h
    exact (List.take_sublist i cs).mem h

/-- Boolean helper: a proposition-level refutation gives the `false`
equation. -/
theorem bool_eq_false {b : Bool} (h : ¬b = true) : b = false := by
  cases b
  · rfl
  · exact absurd rfl h

/-- Every character of the whitespace-collapsed text is a space or a
non-whitespace character. -/
theorem subAllM_wsPlus_mem :
    ∀ (fuel : Nat) (cs : List Char), cs.length < fuel →
      ∀ c ∈ subAllM wsPlus [' '] fuel cs, c = ' ' ∨ isPyWs c = false := by
  intro fuel
  induction fuel with
  | zero => intro cs h; omega
  | succ fuel ih =>
    intro cs hlen c hc
    cases cs with
    | nil => simp [subAllM] at hc
    | cons a cs =>
      by_cases hws : isPyWs a = true
      · have hmatch : wsPlus (a :: cs) = some (cs.dropWhile isPyWs) := by
          unfold wsPlus
          simp [List.span_eq_take_drop, List.takeWhile_cons_of_pos hws,
            List.dropWhile_cons_of_pos hws]
        simp only [subAllM, hmatch, List.singleton_append] at hc
        rcases List.mem_cons.mp hc with h1 | h1
        · exact Or.inl h1
        · exact ih (cs.dropWhile isPyWs)
            (by
              have := (List.dropWhile_sublist (p := isPyWs) (l := cs)).length_le
              simp only [List.length_cons] at hlen
              omega) c h1
      · have hmatch : wsPlus (a :: cs) = none := by
          unfold wsPlus
          simp [List.span_eq_take_drop, List.takeWhile_cons_of_neg hws]
        simp only [subAllM, hmatch] at hc
        rcases List.mem_cons.mp hc with h1 | h1
        · subst h1
          exact Or.inr (bool_eq_false hws)
        · exact ih cs (by simp only [List.length_cons] at hlen; omega) c h1

/-- The whitespace-collapsing pass removes every newline. -/
theorem subAll_wsPlus_no_nl (s : List Char) : '\n' ∉ subAll wsPlus [' '] s := by
  intro h
  rcases subAllM_wsPlus_mem (s.length + 1) s (Nat.lt_succ_self _) '\n' h with
    h1 | h1
  · exact absurd h1 (by decide)
  · exact absurd h1 (by decide)

/-- On newline-free text the `\n+` pass is the identity. -/
theorem subAllM_nlPlus_id :
    ∀ (fuel : Nat) (cs : List Char), cs.length < fuel → '\n' ∉ cs →
      subAllM nlPlus [' '] fuel cs = cs := by
  intro fuel
  induction fuel with
  | zero => intro cs h; omega
  | succ fuel ih =>
    intro cs hlen hnl
    cases cs with
    | nil => rfl
    | cons a cs =>
      have ha : ¬a = '\n' := fun he => hnl (by rw [he]; exact List.mem_cons_self _ _)
      have hmatch : nlPlus (a :: cs) = none := by
        unfold nlPlus
        simp [List.span_eq_take_drop, List.takeWhile_cons_of_neg, ha]
      simp only [subAllM, hmatch]
      rw [ih cs (by simp only [List.length_cons] at hlen; omega)
        (fun hm => hnl (List.mem_cons_of_mem _ hm))]

/-- The `State/UT Code.*` matcher in map form. -/
theorem mStateStar_eq (cs : List Char) :
    mStateStar cs = (litCS "State/UT Code".toList cs).map
      (fun r => r.dropWhile (fun c => c != '\n')) := by
  unfold mStateStar
  cases litCS "State/UT Code".toList cs <;> rfl

/-- The `Place of.*` matcher in map form. -/
theorem mPlaceStar_eq (cs : List Char) :
    mPlaceStar cs = (litCS "Place of".toList cs).map
      (fun r => r.dropWhile (fun c => c != '\n')) := by
  unfold mPlaceStar
  cases litCS "Place of".toList cs <;> rfl

/-- On newline-free text, deleting `marker.*` for every occurrence equals
truncating at the first occurrence of the marker. -/
theorem subAllM_marker_cut (needle : List Char) (hne : needle ≠ []) :
    ∀ (fuel : Nat) (cs : List Char), cs.length < fuel → '\n' ∉ cs →
      subAllM (fun s => (litCS needle s).map
          (fun r => r.dropWhile (fun c => c != '\n'))) [] fuel cs
        = cutAtFirst needle cs := by
  intro fuel
  induction fuel with
  | zero => intro cs h; omega
  | succ fuel ih =>
    intro cs hlen hnl
    cases cs with
    | nil =>
      simp only [subAllM]
      unfold cutAtFirst firstIdxCS
      cases needle with
      | nil => exact absurd rfl hne
      | cons p ps => simp [litCS]
    | cons a cs =>
      cases hlit : litCS needle (a :: cs) with
      | some r =>
        have hdecomp := litCS_some_decomp needle _ _ hlit
        have hrnl : ∀ x ∈ r, (x != '\n') = true := by
          intro x hx
          have hxin : x ∈ a :: cs := by
            rw [hdecomp]
            exact List.mem_append_right _ hx
          simp only [bne_iff_ne, ne_eq]
          intro hxe
          subst hxe
          exact hnl hxin
        have hdrop : r.dropWhile (fun c => c != '\n') = [] :=
          List.dropWhile_eq_nil_iff.mpr hrnl
        simp only [subAllM, hlit, Option.map_some', hdrop, List.nil_append]
        have hnilsub : subAllM (fun s => (litCS needle s).map
            (fun r => r.dropWhile (fun c => c != '\n'))) [] fuel [] = [] := by
          cases fuel <;> rfl
        rw [hnilsub]
        exact (cutAtFirst_cons_pos (by rw [hlit]; rfl)).symm
      | none =>
        simp only [subAllM, hlit, Option.map_none']
        rw [ih cs (by simp only [List.length_cons] at hlen; omega)
          (fun hm => hnl (List.mem_cons_of_mem _ hm))]
        exact (cutAtFirst_cons_neg (by rw [hlit]; rfl)).symm

/-- The `State/UT Code` deletion pass truncates newline-free text at the
first occurrence. -/
theorem subAll_mStateStar_eq (cs : List Char) (hnl : '\n' ∉ cs) :
    subAll mStateStar [] cs = cutAtFirst "State/UT Code".toList cs := by
  unfold subAll
  rw [funext mStateStar_eq]
  exact subAllM_marker_cut _ (by decide) _ cs (Nat.lt_succ_self _) hnl

/-- The `Place of` deletion pass truncates newline-free text at the first
occurrence. -/
theorem subAll_mPlaceStar_eq (cs : List Char) (hnl : '\n' ∉ cs) :
    subAll mPlaceStar [] cs = cutAtFirst "Place of".toList cs := by
  unfold subAll
  rw [funext mPlaceStar_eq]
  exact subAllM_marker_cut _ (by decide) _ cs (Nat.lt_succ_self _) hnl

/-- The `State/UT Code` marker cannot start strictly inside a `Place of`
occurrence: none of the interior characters of `Place of` is `S`. -/
theorem state_not_inside_place (c : Char) (cs r : List Char)
    (h : litCS "Place of".toList (c :: cs) = some r) (k : Nat)
    (h1 : 1 ≤ k) (h7 : k ≤ 7) :
    (litCS "State/UT Code".toList ((c :: cs).drop k)).isSome = false := by
  have hd := litCS_some_decomp _ _ _ h
  have hplace : "Place of".toList = ['P', 'l', 'a', 'c', 'e', ' ', 'o', 'f'] :=
    rfl
  rw [hplace] at hd
  interval_cases k <;> (rw [hd]; simp [litCS])

/-- First-occurrence index when the marker sits at the head. -/
theorem firstIdxCS_cons_pos {n : List Char} {c : Char} {cs : List Char}
    (h : (litCS n (c :: cs)).isSome = true) :
    firstIdxCS n (c :: cs) = some 0 := by
  simp [firstIdxCS, h]

/-- First-occurrence index steps over a head where the marker does not
sit. -/
theorem firstIdxCS_cons_neg {n : List Char} {c : Char} {cs : List Char}
    (h : (litCS n (c :: cs)).isSome = false) :
    firstIdxCS n (c :: cs) = (firstIdxCS n cs).map (fun m => m + 1) := by
  simp [firstIdxCS, h]

/-- When neither marker sits at the head, the minimum-cut steps over it. -/
theorem cutMin_cons_neither {c : Char} {cs : List Char}
    (hA : (litCS "State/UT Code".toList (c :: cs)).isSome = false)
    (hB : (litCS "Place of".toList (c :: cs)).isSome = false) :
    cutMin (c :: cs) = c :: cutMin cs := by
  unfold cutMin
  rw [firstIdxCS_cons_neg hA, firstIdxCS_cons_neg hB]
  cases firstIdxCS "State/UT Code".toList cs with
  | none =>
    cases firstIdxCS "Place of".toList cs with
    | none => rfl
    | some j => simp [List.take_succ_cons]
  | some i =>
    cases firstIdxCS "Place of".toList cs with
    | none => simp [List.take_succ_cons]
    | some j => simp [List.take_succ_cons, Nat.succ_min_succ]

/-- Cutting at the first `State/UT Code` and then at the first `Place of`
equals cutting at whichever marker occurs first. -/
theorem cutAtFirst_comm_min (cs : List Char) :
    cutAtFirst "Place of".toList (cutAtFirst "State/UT Code".toList cs)
      = cutMin cs := by
  induction cs with
  | nil => rfl
  | cons c cs ih =>
    by_cases hA : (litCS "State/UT Code".toList (c :: cs)).isSome = true
    · rw [cutAtFirst_cons_pos hA]
      have hpn : cutAtFirst "Place of".toList ([] : List Char) = [] := by
        decide
      rw [hpn]
      unfold cutMin
      rw [firstIdxCS_cons_pos hA]
      cases firstIdxCS "Place of".toList (c :: cs) with
      | none => rfl
      | some j => simp [Nat.zero_min]
    · have hA' := bool_eq_false hA
      by_cases hB : (litCS "Place of".toList (c :: cs)).isSome = true
      · rw [cutAtFirst_cons_neg hA']
        cases hfi : firstIdxCS "State/UT Code".toList cs with
        | none =>
          have hX : cutAtFirst "State/UT Code".toList cs = cs := by
            unfold cutAtFirst
            rw [hfi]
          rw [hX, cutAtFirst_cons_pos hB]
          unfold cutMin
          rw [firstIdxCS_cons_neg hA', hfi, firstIdxCS_cons_pos hB]
          rfl
        | some i =>
          have hX : cutAtFirst "State/UT Code".toList cs = cs.take i := by
            unfold cutAtFirst
            rw [hfi]
          have hi7 : 7 ≤ i := by
            by_contra hlt
            push_neg at hlt
            have hocc := firstIdxCS_spec _ cs i hfi
            obtain ⟨r, hr⟩ : ∃ r, litCS "Place of".toList (c :: cs)
                = some r := by
              cases hlr : litCS "Place of".toList (c :: cs) with
              | none => rw [hlr] at hB; cases hB
              | some r => exact ⟨r, rfl⟩
            have hcontra := state_not_inside_place c cs r hr (i + 1)
              (by omega) (by omega)
            rw [List.drop_succ_cons] at hcontra
            rw [hocc] at hcontra
            cases hcontra
          rw [hX]
          have hBtake : (litCS "Place of".toList (c :: cs.take i)).isSome
              = true := by
            have htake : c :: cs.take i = (c :: cs).take (i + 1) := by
              rw [List.take_succ_cons]
            rw [htake]
            exact litCS_isSome_of_take _ (i + 1) (c :: cs)
              (by simp; omega) hB
          rw [cutAtFirst_cons_pos hBtake]
          unfold cutMin
          rw [firstIdxCS_cons_neg hA', hfi, firstIdxCS_cons_pos hB]
          simp [Nat.min_zero]
      · have hB' := bool_eq_false hB
        rw [cutAtFirst_cons_neg hA']
        have hBX : (litCS "Place of".toList
            (c :: cutAtFirst "State/UT Code".toList cs)).isSome = false := by
          apply bool_eq_false
          intro hsome
          unfold cutAtFirst at hsome
          cases hfi : firstIdxCS "State/UT Code".toList cs with
          | none =>
            rw [hfi] at hsome
            exact hB hsome
          | some i =>
            rw [hfi] at hsome
            have htake : c :: cs.take i = (c :: cs).take (i + 1) := by
              rw [List.take_succ_cons]
            rw [htake] at hsome
            exact hB (litCS_take_isSome _ _ _ hsome)
        rw [cutAtFirst_cons_neg hBX, ih, cutMin_cons_neither hA' hB']

/-- C6 (amended): `clean_address` collapses all whitespace and newlines to
single spaces, truncates at the first occurrence of the `State/UT Code`
marker or the `Place of` marker — whichever of the two appears first —
matching the markers *case-sensitively*, and trims the result. -/
theorem c6_clean_address (s : List Char) : clean_address s = addressSpec s := by
  show pyStrip (subAll mPlaceStar [] (subAll mStateStar []
      (subAll nlPlus [' '] (subAll wsPlus [' '] s))))
    = pyStrip (cutMin (subAll wsPlus [' '] s))
  have hnl : '\n' ∉ subAll wsPlus [' '] s := subAll_wsPlus_no_nl s
  have h2 : subAll nlPlus [' '] (subAll wsPlus [' '] s)
      = subAll wsPlus [' '] s := by
    unfold subAll
    exact subAllM_nlPlus_id _ _ (Nat.lt_succ_self _) hnl
  rw [h2, subAll_mStateStar_eq _ hnl]
  have hnl2 : '\n' ∉ cutAtFirst "State/UT Code".toList
      (subAll wsPlus [' '] s) := fun hm => hnl (mem_cutAtFirst hm)
  rw [subAll_mPlaceStar_eq _ hnl2, cutAtFirst_comm_min]

/-- Counterexample to C6 as stated: the markers are matched
case-sensitively, so a lower-case `state/ut code` marker does not truncate
the address, while the claim (match "regardless of their letter case")
requires truncation to `abc`. -/
theorem c6_counterexample :
    clean_address "abc state/ut code xyz".toList
        = "abc state/ut code xyz".toList
    ∧ "abc state/ut code xyz".toList ≠ "abc".toList :=
  ⟨by decide, by decide⟩
